import Mathlib

/-!
Verification of the analytics core of the trading dashboard (`src/app.py`).

Trades are modelled with their entry timestamp split into a calendar-day
index and a time of day (hour, minute, second); the net result
("Lucro Líquido (pts)") is modelled as a rational number.  Pandas data
frames become Lean lists; `sort_values("DataHora")` becomes a stable
insertion sort on the timestamp key; `groupby` becomes grouping by the
sorted list of distinct keys, each group kept in original order (which is
how pandas iterates groups).
-/

namespace TradingDash

/-! ### A stable sort on lists (the model of `sort_values`) -/

/-- Insert `a` into `l` before the first element `b` with `le a b = false`
failing, i.e. keep `a` ahead of later equal elements (stable). -/
def insertLe {α : Type} (le : α → α → Bool) (a : α) : List α → List α
  | [] => [a]
  | b :: l => if le a b then a :: b :: l else b :: insertLe le a l

/-- Stable insertion sort with respect to the boolean comparator `le`. -/
def sortLe {α : Type} (le : α → α → Bool) : List α → List α
  | [] => []
  | a :: l => insertLe le a (sortLe le l)

theorem perm_insertLe {α : Type} (le : α → α → Bool) (a : α) :
    ∀ l : List α, (insertLe le a l).Perm (a :: l) := by
  intro l
  induction l with
  | nil => exact List.Perm.refl _
  | cons b l ih =>
    unfold insertLe
    by_cases h : le a b
    · rw [if_pos h]
    · rw [if_neg h]
      exact (List.Perm.cons b ih).trans (List.Perm.swap a b l)

theorem perm_sortLe {α : Type} (le : α → α → Bool) :
    ∀ l : List α, (sortLe le l).Perm l := by
  intro l
  induction l with
  | nil => exact List.Perm.refl _
  | cons a l ih =>
    exact (perm_insertLe le a (sortLe le l)).trans (List.Perm.cons a ih)

theorem mem_sortLe {α : Type} (le : α → α → Bool) (x : α) (l : List α) :
    x ∈ sortLe le l ↔ x ∈ l :=
  (perm_sortLe le l).mem_iff

theorem length_sortLe {α : Type} (le : α → α → Bool) (l : List α) :
    (sortLe le l).length = l.length :=
  (perm_sortLe le l).length_eq

/-! ### The data model -/

/-- One trade row after normalization: entry timestamp (day index plus
time of day) and net result in points. -/
structure Trade where
  day : Nat
  hour : Nat
  minute : Nat
  second : Nat
  net : ℚ
deriving DecidableEq, Repr, Inhabited

/-- Total ordering key of the `DataHora` entry timestamp. -/
def timeKey (t : Trade) : Nat :=
  ((t.day * 24 + t.hour) * 60 + t.minute) * 60 + t.second

/-- Comparator used by every `sort_values("DataHora")`. -/
def timeLeB (a b : Trade) : Bool := timeKey a ≤ timeKey b

/-- `df["DataHora"].dt.hour * 60 + df["DataHora"].dt.minute`: minutes since
midnight of the entry time, seconds discarded. -/
def minsAbertura (t : Trade) : Nat := t.hour * 60 + t.minute

/-! ### Summary engine: `resumo` (src/app.py lines 47-55) -/

/-- Sum of the positive net results of a series. -/
def posSum (s : List Trade) : ℚ :=
  ((s.filter fun t => 0 < t.net).map Trade.net).sum

/-- Sum of the negative net results of a series. -/
def negSum (s : List Trade) : ℚ :=
  ((s.filter fun t => t.net < 0).map Trade.net).sum

/-- `resumo(df_x)`: returns (count, net balance, profit factor).  `none`
stands for the float `+inf` the Python code returns when there is no loss. -/
def resumo (s : List Trade) : Nat × ℚ × Option ℚ :=
  if s.isEmpty then (0, 0, none)
  else
    let lucro := ((s.filter fun t => 0 < t.net).map Trade.net).sum
    let preju := ((s.filter fun t => t.net < 0).map Trade.net).sum
    let saldo := lucro + preju
    let fator := if preju ≠ 0 then some |lucro / preju| else none
    (s.length, saldo, fator)

/-! ### Daily stop simulator: `simular_stop_diario` (src/app.py lines 57-90) -/

/-- Streak update of `simular_stop_diario`: a losing trade increments the
consecutive-loss counter, any other trade resets it to zero. -/
def updateStreak (net : ℚ) (k : Nat) : Nat := if net < 0 then k + 1 else 0

/-- The three stop guards checked after each trade is appended. -/
def stopCondB (limite_perda objetivo_ganho : ℚ) (loss_consecutivos : Nat)
    (saldo : ℚ) (k : Nat) : Bool :=
  decide (objetivo_ganho ≤ saldo) || decide (saldo ≤ -limite_perda) ||
    decide (loss_consecutivos ≤ k)

/-- Inner loop of `simular_stop_diario` over one day's trades: append the
trade, update balance and streak, then stop the day if a guard fires. -/
def processDay (lp og : ℚ) (lc : Nat) : List Trade → ℚ → Nat → List Trade
  | [], _, _ => []
  | t :: rest, saldo, k =>
    let saldo2 := saldo + t.net
    let k2 := updateStreak t.net k
    if stopCondB lp og lc saldo2 k2 then [t]
    else t :: processDay lp og lc rest saldo2 k2

/-- The distinct calendar days of the series, ascending — the iteration
order of `df_tmp.groupby("Data")`. -/
def dayKeys (s : List Trade) : List Nat :=
  sortLe (fun a b => decide (a ≤ b)) ((s.map Trade.day).dedup)

/-- One day's group: the trades of that day in input order, then
`grupo.sort_values("DataHora")`. -/
def dayGroup (s : List Trade) (d : Nat) : List Trade :=
  sortLe timeLeB (s.filter fun t => t.day = d)

/-- The rows kept by `simular_stop_diario`: concatenation of the truncated
day groups, re-sorted by `DataHora`. -/
def simRows (lp og : ℚ) (lc : Nat) (s : List Trade) : List Trade :=
  sortLe timeLeB ((dayKeys s).flatMap fun d => processDay lp og lc (dayGroup s d) 0 0)

/-- Running cumulative sums (`cumsum`) with the given starting total. -/
def cumsumAux (acc : ℚ) : List ℚ → List ℚ
  | [] => []
  | x :: xs => (acc + x) :: cumsumAux (acc + x) xs

/-- `Series.cumsum()`. -/
def cumsum (l : List ℚ) : List ℚ := cumsumAux 0 l

/-- Result of `simular_stop_diario`: the kept rows, and the
"Total Parcial (pts)" column, which the code attaches only inside the
`if len(df_sim) > 0` branch. -/
structure SimResult where
  rows : List Trade
  totalParcial : Option (List ℚ)
deriving DecidableEq, Repr

/-- `simular_stop_diario(df_in, limite_perda, objetivo_ganho, loss_consecutivos)`. -/
def simular_stop_diario (lp og : ℚ) (lc : Nat) (s : List Trade) : SimResult :=
  let rows := simRows lp og lc s
  if rows.isEmpty then ⟨rows, none⟩
  else ⟨rows, some (cumsum (rows.map Trade.net))⟩

/-! ### Window filter: `filtrar_por_tres_janelas_abertura` (src/app.py lines 92-139) -/

/-- `time_to_minutes(t)` for a configuration time given as (hour, minute). -/
def time_to_minutes (t : Nat × Nat) : Nat := t.1 * 60 + t.2

/-- `mask_janela(mins, ini, fim)`: closed interval, or a midnight-wrapping
disjunction when `fim < ini`. -/
def mask_janela (mins ini fim : Nat) : Bool :=
  if ini ≤ fim then decide (ini ≤ mins) && decide (mins ≤ fim)
  else decide (ini ≤ mins) || decide (mins ≤ fim)

/-- The contribution of an optional window: it is applied only when its
activation flag is set and both bounds are provided. -/
def maskOpcional (m : Nat) (u : Bool) (hi hf : Option (Nat × Nat)) : Bool :=
  match u, hi, hf with
  | true, some a, some b => mask_janela m (time_to_minutes a) (time_to_minutes b)
  | _, _, _ => false

/-- The boolean mask of `filtrar_por_tres_janelas_abertura` for one trade:
window 1 always, windows 2 and 3 through `maskOpcional`. -/
def keepTrade (t : Trade) (h1i h1f : Nat × Nat)
    (u2 : Bool) (h2i h2f : Option (Nat × Nat))
    (u3 : Bool) (h3i h3f : Option (Nat × Nat)) : Bool :=
  let m := minsAbertura t
  (mask_janela m (time_to_minutes h1i) (time_to_minutes h1f)
    || maskOpcional m u2 h2i h2f)
    || maskOpcional m u3 h3i h3f

/-- `filtrar_por_tres_janelas_abertura`: keep the masked rows, sorted by
`DataHora`. -/
def filtrar_por_tres_janelas_abertura (s : List Trade) (h1i h1f : Nat × Nat)
    (u2 : Bool) (h2i h2f : Option (Nat × Nat))
    (u3 : Bool) (h3i h3f : Option (Nat × Nat)) : List Trade :=
  sortLe timeLeB (s.filter fun t => keepTrade t h1i h1f u2 h2i h2f u3 h3i h3f)

/-! ### Time-bucket aggregator (src/app.py lines 342-432) -/

/-- `slot_15m = min_do_dia // 15`. -/
def slot_15m (t : Trade) : Nat := minsAbertura t / 15

/-- `slot_1h = min_do_dia // 60`. -/
def slot_1h (t : Trade) : Nat := minsAbertura t / 60

/-- `calc_expectancia(grupo)` (src/app.py lines 376-390). -/
def calc_expectancia (grupo : List Trade) : ℚ :=
  let ganhos := (grupo.filter fun t => 0 < t.net).map Trade.net
  let perdas := (grupo.filter fun t => t.net < 0).map Trade.net
  let n := grupo.length
  if n = 0 then 0
  else
    let winrate : ℚ := (ganhos.length : ℚ) / (n : ℚ)
    let lossrate : ℚ := 1 - winrate
    let avg_gain : ℚ := if ganhos.length = 0 then 0 else ganhos.sum / (ganhos.length : ℚ)
    let avg_loss : ℚ := if perdas.length = 0 then 0 else |perdas.sum / (perdas.length : ℚ)|
    winrate * avg_gain - lossrate * avg_loss

/-- One row of a bucket table: bucket index, "Soma (pts)",
"Expectância (pts)", "Qtd Ops", "Taxa Acerto (%)". -/
structure BucketRow where
  ordem : Nat
  soma : ℚ
  expectancia : ℚ
  qtdOps : Nat
  taxaAcerto : ℚ
deriving DecidableEq, Repr

/-- The aggregation applied to each groupby group. -/
def mkRow (b : Nat) (g : List Trade) : BucketRow :=
  ⟨b, (g.map Trade.net).sum, calc_expectancia g, g.length,
    ((g.filter fun t => 0 < t.net).length : ℚ) / (g.length : ℚ) * 100⟩

/-- The trades of 15-minute bucket `b`, in input order. -/
def bucketGroup15 (s : List Trade) (b : Nat) : List Trade :=
  s.filter fun t => slot_15m t = b

/-- The distinct 15-minute bucket indices of the series, ascending — the
groupby keys of `df_hor_15`. -/
def buckets15 (s : List Trade) : List Nat :=
  sortLe (fun a b => decide (a ≤ b)) ((s.map slot_15m).dedup)

/-- `df_hor_15` (src/app.py lines 395-405): one row per 15-minute bucket
present in the data, ascending by bucket index. -/
def df_hor_15 (s : List Trade) : List BucketRow :=
  (buckets15 s).map fun b => mkRow b (bucketGroup15 s b)

/-- The trades of 1-hour bucket `b`, in input order. -/
def bucketGroup1h (s : List Trade) (b : Nat) : List Trade :=
  s.filter fun t => slot_1h t = b

/-- The distinct 1-hour bucket indices of the series, ascending. -/
def buckets1h (s : List Trade) : List Nat :=
  sortLe (fun a b => decide (a ≤ b)) ((s.map slot_1h).dedup)

/-- `df_hor_1h` (src/app.py lines 410-420). -/
def df_hor_1h (s : List Trade) : List BucketRow :=
  (buckets1h s).map fun b => mkRow b (bucketGroup1h s b)

/-! ### Specification-side functions (the claims' wording) -/

/-- Running daily balance of a processed day prefix: sum of its net results. -/
def runningBalance (p : List Trade) : ℚ := (p.map Trade.net).sum

/-- Consecutive losses after a processed day prefix: length of its trailing
run of trades with negative net result. -/
def consecLosses (p : List Trade) : Nat :=
  (p.reverse.takeWhile fun t => t.net < 0).length

/-- Stated stop test on a day prefix: balance at or above the gain target,
at or below minus the loss limit, or streak at or above the limit. -/
def stopAfterSpec (lp og : ℚ) (lc : Nat) (p : List Trade) : Bool :=
  stopCondB lp og lc (runningBalance p) (consecLosses p)

/-- Kept trades of one day per the specification, processing after an
already-committed prefix `p`: the group up to and including the first trade
whose committed prefix satisfies the stop test, or the whole group. -/
def specKeepFrom (lp og : ℚ) (lc : Nat) (p g : List Trade) : List Trade :=
  match (List.range g.length).find? (fun i => stopAfterSpec lp og lc (p ++ g.take (i + 1))) with
  | some i => g.take (i + 1)
  | none => g

/-- Kept trades of one day per the specification, starting the day fresh. -/
def specKeep (lp og : ℚ) (lc : Nat) (g : List Trade) : List Trade :=
  specKeepFrom lp og lc [] g

/-- The window-membership predicate as the specification words it: a window
with end at or after start is a closed interval; a window with end before
start wraps midnight. -/
def inWindowSpec (t ini fim : Nat) : Prop :=
  (ini ≤ fim ∧ ini ≤ t ∧ t ≤ fim) ∨ (fim < ini ∧ (ini ≤ t ∨ t ≤ fim))

end TradingDash

namespace TradingDash

/-! ### Helper lemmas about the day replay -/

theorem runningBalance_append_one (p : List Trade) (t : Trade) :
    runningBalance (p ++ [t]) = runningBalance p + t.net := by
  simp [runningBalance]

theorem consecLosses_append_one (p : List Trade) (t : Trade) :
    consecLosses (p ++ [t]) = updateStreak t.net (consecLosses p) := by
  unfold consecLosses updateStreak
  rw [List.reverse_append]
  by_cases h : t.net < 0 <;> simp [List.takeWhile_cons, h]

theorem specKeepFrom_nil (lp og : ℚ) (lc : Nat) (p : List Trade) :
    specKeepFrom lp og lc p [] = [] := by
  simp [specKeepFrom]

theorem specKeepFrom_cons_stop (lp og : ℚ) (lc : Nat) (p : List Trade) (t : Trade)
    (rest : List Trade) (h : stopAfterSpec lp og lc (p ++ [t]) = true) :
    specKeepFrom lp og lc p (t :: rest) = [t] := by
  unfold specKeepFrom
  rw [List.length_cons, List.range_succ_eq_map,
    List.find?_cons_of_pos _ (by simpa using h)]
  rfl

theorem specKeepFrom_cons_go (lp og : ℚ) (lc : Nat) (p : List Trade) (t : Trade)
    (rest : List Trade) (h : ¬ stopAfterSpec lp og lc (p ++ [t]) = true) :
    specKeepFrom lp og lc p (t :: rest) = t :: specKeepFrom lp og lc (p ++ [t]) rest := by
  unfold specKeepFrom
  rw [List.length_cons, List.range_succ_eq_map,
    List.find?_cons_of_neg _ (by simpa using h), List.find?_map]
  have hcomp : ((fun i => stopAfterSpec lp og lc (p ++ (t :: rest).take (i + 1))) ∘ Nat.succ)
      = fun i => stopAfterSpec lp og lc ((p ++ [t]) ++ rest.take (i + 1)) := by
    funext i
    show stopAfterSpec lp og lc (p ++ (t :: rest).take (i + 1 + 1)) = _
    rw [List.take_succ_cons, List.append_cons]
  rw [hcomp]
  cases hfind : (List.range rest.length).find?
      (fun i => stopAfterSpec lp og lc ((p ++ [t]) ++ rest.take (i + 1))) with
  | none => simp
  | some i => simp [List.take_succ_cons]

theorem processDay_eq_specKeepFrom (lp og : ℚ) (lc : Nat) :
    ∀ (g p : List Trade),
      processDay lp og lc g (runningBalance p) (consecLosses p) = specKeepFrom lp og lc p g := by
  intro g
  induction g with
  | nil => intro p; simp [processDay, specKeepFrom_nil]
  | cons t rest ih =>
    intro p
    rw [processDay]
    simp only [← runningBalance_append_one, ← consecLosses_append_one]
    by_cases h : stopCondB lp og lc (runningBalance (p ++ [t])) (consecLosses (p ++ [t])) = true
    · rw [if_pos h, specKeepFrom_cons_stop lp og lc p t rest h]
    · rw [if_neg h, specKeepFrom_cons_go lp og lc p t rest h, ih (p ++ [t])]

theorem processDay_eq_specKeep (lp og : ℚ) (lc : Nat) (g : List Trade) :
    processDay lp og lc g 0 0 = specKeep lp og lc g := by
  have h := processDay_eq_specKeepFrom lp og lc g []
  simpa [runningBalance, consecLosses, specKeep] using h

end TradingDash

namespace TradingDash

/-- C1 head theorem body: the simulator output is the stable time-sort of
the per-day spec-kept groups. -/
theorem simRows_eq_specKeep (lp og : ℚ) (lc : Nat) (s : List Trade) :
    simRows lp og lc s
      = sortLe timeLeB ((dayKeys s).flatMap fun d => specKeep lp og lc (dayGroup s d)) := by
  unfold simRows
  have h : (fun d => processDay lp og lc (dayGroup s d) 0 0)
      = fun d => specKeep lp og lc (dayGroup s d) := by
    funext d
    exact processDay_eq_specKeep lp og lc (dayGroup s d)
  rw [h]

/-! ### Partition-sum lemmas for the groupby aggregations -/

theorem sum_map_add_distrib {α M : Type} [AddCommMonoid M] (l : List α) (f g : α → M) :
    (l.map fun x => f x + g x).sum = (l.map f).sum + (l.map g).sum := by
  induction l with
  | nil => simp
  | cons a l ih =>
    rw [List.map_cons, List.sum_cons, ih, List.map_cons, List.sum_cons,
      List.map_cons, List.sum_cons]
    abel

theorem sum_ite_not_mem {M : Type} [AddCommMonoid M] (v : M) (c : Nat) :
    ∀ ks : List Nat, c ∉ ks → (ks.map fun k => if c = k then v else 0).sum = 0 := by
  intro ks
  induction ks with
  | nil => intro _; simp
  | cons k ks ih =>
    intro h
    have hck : ¬ c = k := fun hc => h (hc ▸ List.mem_cons_self k ks)
    have hcs : c ∉ ks := fun hc => h (List.mem_cons_of_mem k hc)
    rw [List.map_cons, List.sum_cons, if_neg hck, ih hcs, zero_add]

theorem sum_ite_mem {M : Type} [AddCommMonoid M] (v : M) (c : Nat) :
    ∀ ks : List Nat, ks.Nodup → c ∈ ks → (ks.map fun k => if c = k then v else 0).sum = v := by
  intro ks
  induction ks with
  | nil => intro _ h; cases h
  | cons k ks ih =>
    intro hnd hc
    rw [List.map_cons, List.sum_cons]
    by_cases hck : c = k
    · subst hck
      rw [if_pos rfl, sum_ite_not_mem v c ks (List.nodup_cons.mp hnd).1, add_zero]
    · rw [if_neg hck, ih (List.nodup_cons.mp hnd).2 ((List.mem_cons.mp hc).resolve_left hck),
        zero_add]

/-- Grouping by a key and summing each group recovers the total: the groups
are a disjoint partition of the list. -/
theorem sum_filter_partition {α M : Type} [AddCommMonoid M] (key : α → Nat) (f : α → M) :
    ∀ (s : List α) (ks : List Nat), ks.Nodup → (∀ x ∈ s, key x ∈ ks) →
      (ks.map fun k => ((s.filter fun x => key x = k).map f).sum).sum = (s.map f).sum := by
  intro s
  induction s with
  | nil =>
    intro ks _ _
    have h : (ks.map fun k => ((([] : List α).filter fun x => key x = k).map f).sum)
        = ks.map fun _ => (0 : M) := by
      apply List.map_congr_left
      intro k _
      simp
    rw [h]
    simp [List.sum_eq_zero]
  | cons x s ih =>
    intro ks hnd hcov
    have hx : key x ∈ ks := hcov x (List.mem_cons_self x s)
    have hstep : (ks.map fun k => (((x :: s).filter fun y => key y = k).map f).sum)
        = ks.map fun k => (if key x = k then f x else 0) + ((s.filter fun y => key y = k).map f).sum := by
      apply List.map_congr_left
      intro k _
      by_cases h : key x = k
      · simp [List.filter_cons, h]
      · simp [List.filter_cons, h]
    rw [hstep, sum_map_add_distrib, sum_ite_mem (f x) (key x) ks hnd hx,
      ih ks hnd (fun y hy => hcov y (List.mem_cons_of_mem x hy)), List.map_cons, List.sum_cons]

theorem length_eq_sum_ones {α : Type} (l : List α) :
    (l.map fun _ => (1 : Nat)).sum = l.length := by
  induction l with
  | nil => rfl
  | cons a l ih => simp [ih, Nat.add_comm]

end TradingDash

namespace TradingDash

theorem nodup_buckets15 (s : List Trade) : (buckets15 s).Nodup :=
  (perm_sortLe _ _).symm.nodup (List.nodup_dedup _)

theorem mem_buckets15 (s : List Trade) (t : Trade) (h : t ∈ s) :
    slot_15m t ∈ buckets15 s := by
  unfold buckets15
  rw [mem_sortLe]
  exact List.mem_dedup.mpr (List.mem_map_of_mem _ h)

theorem nodup_dayKeys (s : List Trade) : (dayKeys s).Nodup :=
  (perm_sortLe _ _).symm.nodup (List.nodup_dedup _)

theorem mem_dayKeys (s : List Trade) (t : Trade) (h : t ∈ s) :
    t.day ∈ dayKeys s := by
  unfold dayKeys
  rw [mem_sortLe]
  exact List.mem_dedup.mpr (List.mem_map_of_mem _ h)

theorem length_processDay_le (lp og : ℚ) (lc : Nat) :
    ∀ (g : List Trade) (saldo : ℚ) (k : Nat),
      (processDay lp og lc g saldo k).length ≤ g.length := by
  intro g
  induction g with
  | nil => intro _ _; simp [processDay]
  | cons t rest ih =>
    intro saldo k
    unfold processDay
    by_cases h : stopCondB lp og lc (saldo + t.net) (updateStreak t.net k)
    · simp [h]
    · simp only [if_neg h, List.length_cons]
      exact Nat.succ_le_succ (ih _ _)

theorem sum_dayGroup_lengths (s : List Trade) :
    ((dayKeys s).map fun d => (dayGroup s d).length).sum = s.length := by
  have h : ((dayKeys s).map fun d => (dayGroup s d).length)
      = (dayKeys s).map fun d => ((s.filter fun t => t.day = d).map fun _ => (1 : Nat)).sum := by
    apply List.map_congr_left
    intro d _
    rw [dayGroup, length_sortLe, ← length_eq_sum_ones]
  rw [h, sum_filter_partition Trade.day (fun _ => (1 : Nat)) s (dayKeys s) (nodup_dayKeys s)
    (fun t ht => mem_dayKeys s t ht), length_eq_sum_ones]

theorem length_simRows_le (lp og : ℚ) (lc : Nat) (s : List Trade) :
    (simRows lp og lc s).length ≤ s.length := by
  unfold simRows
  rw [length_sortLe, List.length_flatMap]
  calc ((dayKeys s).map (List.length ∘ fun d => processDay lp og lc (dayGroup s d) 0 0)).sum
      ≤ ((dayKeys s).map fun d => (dayGroup s d).length).sum := by
        apply List.sum_le_sum
        intro d _
        exact length_processDay_le lp og lc (dayGroup s d) 0 0
    _ = s.length := sum_dayGroup_lengths s

end TradingDash

namespace TradingDash

/-! ### Window filter membership lemmas -/

theorem mask_janela_eq_true (m ini fim : Nat) :
    mask_janela m ini fim = true ↔ inWindowSpec m ini fim := by
  unfold mask_janela inWindowSpec
  by_cases h : ini ≤ fim
  · simp [h]
  · simp [h]
    omega

theorem maskOpcional_eq_true (m : Nat) (u : Bool) (hi hf : Option (Nat × Nat)) :
    maskOpcional m u hi hf = true ↔
      (u = true ∧ ∃ a b, hi = some a ∧ hf = some b ∧
        inWindowSpec m (time_to_minutes a) (time_to_minutes b)) := by
  cases u <;> cases hi <;> cases hf <;>
    simp [maskOpcional, mask_janela_eq_true]

theorem keepTrade_eq_true (t : Trade) (h1i h1f : Nat × Nat)
    (u2 : Bool) (h2i h2f : Option (Nat × Nat))
    (u3 : Bool) (h3i h3f : Option (Nat × Nat)) :
    keepTrade t h1i h1f u2 h2i h2f u3 h3i h3f = true ↔
      (inWindowSpec (minsAbertura t) (time_to_minutes h1i) (time_to_minutes h1f)
        ∨ (u2 = true ∧ ∃ a b, h2i = some a ∧ h2f = some b ∧
            inWindowSpec (minsAbertura t) (time_to_minutes a) (time_to_minutes b))
        ∨ (u3 = true ∧ ∃ a b, h3i = some a ∧ h3f = some b ∧
            inWindowSpec (minsAbertura t) (time_to_minutes a) (time_to_minutes b))) := by
  unfold keepTrade
  rw [Bool.or_eq_true, Bool.or_eq_true, mask_janela_eq_true,
    maskOpcional_eq_true, maskOpcional_eq_true, or_assoc]

/-! ### Simulator head lemmas -/

theorem processDay_cons_head (lp og : ℚ) (lc : Nat) (t : Trade) (rest : List Trade)
    (saldo : ℚ) (k : Nat) :
    ∃ l, processDay lp og lc (t :: rest) saldo k = t :: l := by
  unfold processDay
  by_cases h : stopCondB lp og lc (saldo + t.net) (updateStreak t.net k)
  · exact ⟨[], by simp [h]⟩
  · exact ⟨processDay lp og lc rest (saldo + t.net) (updateStreak t.net k), by simp [h]⟩

theorem mem_dayKeys_of_group_ne (s : List Trade) (d : Nat) (h : dayGroup s d ≠ []) :
    d ∈ dayKeys s := by
  have hf : (s.filter fun t => t.day = d) ≠ [] := by
    intro hnil
    apply h
    unfold dayGroup
    rw [hnil]
    rfl
  obtain ⟨x, hx⟩ := List.exists_mem_of_ne_nil _ hf
  obtain ⟨hxs, hxd⟩ := List.mem_filter.mp hx
  have : x.day = d := by simpa using hxd
  exact this ▸ mem_dayKeys s x hxs

end TradingDash

namespace TradingDash

/-! ### Claim theorems -/

/-- C1: `simular_stop_diario` partitions the series by calendar date of the
entry timestamp and processes each date in ascending entry-time order;
within a day every trade is appended unconditionally (the stop-triggering
trade included) and the rest of the day is cut exactly at the first trade
after which the running daily balance is at or above the gain target, at or
below minus the loss limit, or the consecutive-loss streak is at or above
the limit; each day's kept trades depend on that day's group alone, so the
next day starts with both counters reset to zero. -/
theorem claim_C1_daily_stop (lp og : ℚ) (lc : Nat) (s : List Trade) :
    simRows lp og lc s
      = sortLe timeLeB ((dayKeys s).flatMap fun d => specKeep lp og lc (dayGroup s d)) :=
  simRows_eq_specKeep lp og lc s

/-- C2: the three-window filter keeps a trade iff it belongs to the input and
its entry minute-of-day lies in window 1, or in window 2 or 3 when the
corresponding flag is set and both bounds are provided (logical OR); a window
with end at or after start is the closed interval, a window with end before
start wraps midnight. -/
theorem claim_C2_window_filter (s : List Trade) (h1i h1f : Nat × Nat)
    (u2 : Bool) (h2i h2f : Option (Nat × Nat))
    (u3 : Bool) (h3i h3f : Option (Nat × Nat)) (t : Trade) :
    t ∈ filtrar_por_tres_janelas_abertura s h1i h1f u2 h2i h2f u3 h3i h3f ↔
      t ∈ s ∧
        (inWindowSpec (minsAbertura t) (time_to_minutes h1i) (time_to_minutes h1f)
          ∨ (u2 = true ∧ ∃ a b, h2i = some a ∧ h2f = some b ∧
              inWindowSpec (minsAbertura t) (time_to_minutes a) (time_to_minutes b))
          ∨ (u3 = true ∧ ∃ a b, h3i = some a ∧ h3f = some b ∧
              inWindowSpec (minsAbertura t) (time_to_minutes a) (time_to_minutes b))) := by
  unfold filtrar_por_tres_janelas_abertura
  rw [mem_sortLe, List.mem_filter, keepTrade_eq_true]

/-- C3: `resumo` returns count, net balance, and a profit factor equal to
|sum of positive net results| / |sum of negative net results|; the profit
factor is `none` (the model of float +inf) exactly when the negative sum is
zero, and on the empty series the result is (0, 0, +inf). -/
theorem claim_C3_resumo (s : List Trade) :
    resumo s = (s.length, posSum s + negSum s,
        if negSum s = 0 then none else some (|posSum s| / |negSum s|))
      ∧ ((resumo s).2.2 = none ↔ negSum s = 0) := by
  have heq : resumo s = (s.length, posSum s + negSum s,
      if negSum s = 0 then none else some (|posSum s| / |negSum s|)) := by
    by_cases h : s.isEmpty
    · have hs : s = [] := List.isEmpty_iff.mp h
      subst hs
      simp [resumo, posSum, negSum]
    · unfold resumo posSum negSum
      rw [if_neg h]
      by_cases h0 : ((s.filter fun t => t.net < 0).map Trade.net).sum = 0
      · simp [h0]
      · simp [h0, abs_div]
  refine ⟨heq, ?_⟩
  rw [heq]
  by_cases h0 : negSum s = 0 <;> simp [h0]

/-- The single-trade series (entry 00:05, net +1) used to refute C4. -/
def ex4 : List Trade := [⟨0, 0, 5, 0, 1⟩]

/-- C4 counterexample: for the series `ex4` the 15-minute bucket 1
(00:15–00:29) contains zero trades, yet no row of the 15-minute bucket table
has index 1 — the table omits empty buckets instead of showing them with
count 0 and expectancy 0. -/
theorem claim_C4_counterexample :
    (∀ t ∈ ex4, slot_15m t ≠ 1) ∧ (∀ r ∈ df_hor_15 ex4, r.ordem ≠ 1) := by
  decide

/-- C4 amended: a 15-minute bucket appears in the bucket table iff it
contains at least one trade of the series (zero-trade buckets are absent);
every row of the table has a positive trade count, and `calc_expectancia`
returns 0 on an empty group, so no division by zero occurs. -/
theorem claim_C4_amended (s : List Trade) (b : Nat) :
    ((∃ r ∈ df_hor_15 s, r.ordem = b) ↔ ∃ t ∈ s, slot_15m t = b)
      ∧ (∀ r ∈ df_hor_15 s, 0 < r.qtdOps) ∧ calc_expectancia [] = 0 := by
  refine ⟨⟨?_, ?_⟩, ?_, rfl⟩
  · rintro ⟨r, hr, hb⟩
    obtain ⟨b', hb', hr'⟩ := List.mem_map.mp hr
    have hbb : b' = b := by rw [← hb, ← hr']; rfl
    subst hbb
    have hd : b' ∈ (s.map slot_15m).dedup := (mem_sortLe _ _ _).mp hb'
    obtain ⟨t, ht, hslot⟩ := List.mem_map.mp (List.mem_dedup.mp hd)
    exact ⟨t, ht, hslot⟩
  · rintro ⟨t, ht, hslot⟩
    exact ⟨mkRow b (bucketGroup15 s b),
      List.mem_map.mpr ⟨b, hslot ▸ mem_buckets15 s t ht, rfl⟩, rfl⟩
  · intro r hr
    obtain ⟨b', hb', hr'⟩ := List.mem_map.mp hr
    have hd : b' ∈ (s.map slot_15m).dedup := (mem_sortLe _ _ _).mp hb'
    obtain ⟨t, ht, hslot⟩ := List.mem_map.mp (List.mem_dedup.mp hd)
    rw [← hr']
    have htg : t ∈ bucketGroup15 s b' := List.mem_filter.mpr ⟨ht, by simpa using hslot⟩
    show 0 < (bucketGroup15 s b').length
    exact List.length_pos.mpr (List.ne_nil_of_mem htg)

/-- C5: the per-bucket sums of net results over all 15-minute buckets add up
to the total sum of net results of the series — bucket assignment by
`minute_of_day // 15` is a disjoint partition covering every trade. -/
theorem claim_C5_bucket_sum (s : List Trade) :
    ((df_hor_15 s).map BucketRow.soma).sum = (s.map Trade.net).sum := by
  unfold df_hor_15
  rw [List.map_map]
  have h : (BucketRow.soma ∘ fun b => mkRow b (bucketGroup15 s b))
      = fun b => ((s.filter fun t => slot_15m t = b).map Trade.net).sum := rfl
  rw [h]
  exact sum_filter_partition slot_15m Trade.net s (buckets15 s) (nodup_buckets15 s)
    (fun t ht => mem_buckets15 s t ht)

/-- C6: for any fixed configuration, the trade count of the combined series
(window filter then stop simulator) is at most the count of the
window-filtered series, which is at most the count of the input series. -/
theorem claim_C6_counts (lp og : ℚ) (lc : Nat) (s : List Trade) (h1i h1f : Nat × Nat)
    (u2 : Bool) (h2i h2f : Option (Nat × Nat))
    (u3 : Bool) (h3i h3f : Option (Nat × Nat)) :
    (simRows lp og lc (filtrar_por_tres_janelas_abertura s h1i h1f u2 h2i h2f u3 h3i h3f)).length
        ≤ (filtrar_por_tres_janelas_abertura s h1i h1f u2 h2i h2f u3 h3i h3f).length
      ∧ (filtrar_por_tres_janelas_abertura s h1i h1f u2 h2i h2f u3 h3i h3f).length
        ≤ s.length := by
  constructor
  · exact length_simRows_le lp og lc _
  · unfold filtrar_por_tres_janelas_abertura
    rw [length_sortLe]
    exact List.length_filter_le _ _

/-- C7: a trade with net result exactly 0 is not counted as a loss: the
streak update of `simular_stop_diario` maps it to 0 from any streak value,
and the consecutive-loss count of any day prefix ending in it is 0. -/
theorem claim_C7_zero_resets (k : Nat) (p : List Trade) (z : Trade) (h : z.net = 0) :
    updateStreak z.net k = 0 ∧ consecLosses (p ++ [z]) = 0 := by
  constructor
  · simp [updateStreak, h]
  · rw [consecLosses_append_one]
    simp [updateStreak, h]

theorem claim_C7_zero_resets_witness :
    updateStreak (0 : ℚ) 3 = 0 ∧ consecLosses ([] ++ [⟨0, 9, 0, 0, 0⟩]) = 0 :=
  claim_C7_zero_resets 3 [] ⟨0, 9, 0, 0, 0⟩ rfl

/-- C8: whatever the thresholds, the stop guards are only evaluated after a
trade has been appended, so the head of every day's group is kept, and the
simulator output is non-empty whenever the input is. -/
theorem claim_C8_first_kept (lp og : ℚ) (lc : Nat) (s : List Trade) (h : s ≠ []) :
    (∀ d t rest, dayGroup s d = t :: rest → t ∈ simRows lp og lc s)
      ∧ simRows lp og lc s ≠ [] := by
  have part1 : ∀ d t rest, dayGroup s d = t :: rest → t ∈ simRows lp og lc s := by
    intro d t rest hg
    have hd : d ∈ dayKeys s := mem_dayKeys_of_group_ne s d (by simp [hg])
    obtain ⟨l, hl⟩ := processDay_cons_head lp og lc t rest 0 0
    have hmem : t ∈ processDay lp og lc (dayGroup s d) 0 0 := by
      rw [hg, hl]
      exact List.mem_cons_self _ _
    have hfm : t ∈ (dayKeys s).flatMap fun d => processDay lp og lc (dayGroup s d) 0 0 :=
      List.mem_flatMap.mpr ⟨d, hd, hmem⟩
    exact (mem_sortLe _ _ _).mpr hfm
  refine ⟨part1, ?_⟩
  obtain ⟨t0, ht0⟩ := List.exists_mem_of_ne_nil s h
  have hmem0 : t0 ∈ dayGroup s t0.day := by
    unfold dayGroup
    rw [mem_sortLe]
    exact List.mem_filter.mpr ⟨ht0, by simp⟩
  cases hgroup : dayGroup s t0.day with
  | nil => rw [hgroup] at hmem0; cases hmem0
  | cons t rest => exact List.ne_nil_of_mem (part1 _ _ _ hgroup)

theorem claim_C8_first_kept_witness :
    simRows 0 0 1 [⟨0, 9, 0, 0, -1⟩] ≠ [] :=
  (claim_C8_first_kept 0 0 1 [⟨0, 9, 0, 0, -1⟩] (by simp)).2

/-- C9: the window filter reads only the hour and minute of the entry
timestamp (seconds are discarded), so two trades differing only in seconds
are treated alike; in particular an entry at 10:45:59 passes a window
09:00–10:45 that ends on its minute. -/
theorem claim_C9_seconds (t t' : Trade) (h1i h1f : Nat × Nat)
    (u2 : Bool) (h2i h2f : Option (Nat × Nat))
    (u3 : Bool) (h3i h3f : Option (Nat × Nat))
    (hh : t.hour = t'.hour) (hm : t.minute = t'.minute) :
    keepTrade t h1i h1f u2 h2i h2f u3 h3i h3f = keepTrade t' h1i h1f u2 h2i h2f u3 h3i h3f
      ∧ keepTrade ⟨0, 10, 45, 59, 0⟩ (9, 0) (10, 45) false none none false none none
        = true := by
  constructor
  · unfold keepTrade minsAbertura
    rw [hh, hm]
  · decide

theorem claim_C9_seconds_witness :
    keepTrade ⟨0, 10, 45, 59, 0⟩ (9, 0) (10, 45) false none none false none none
      = keepTrade ⟨0, 10, 45, 0, 0⟩ (9, 0) (10, 45) false none none false none none :=
  (claim_C9_seconds ⟨0, 10, 45, 59, 0⟩ ⟨0, 10, 45, 0, 0⟩ (9, 0) (10, 45)
    false none none false none none rfl rfl).1

/-- C10: `simular_stop_diario` carries the recomputed "Total Parcial (pts)"
column exactly when at least one trade is kept, and on the empty input it
returns the empty series without that column. -/
theorem claim_C10_total_parcial (lp og : ℚ) (lc : Nat) (s : List Trade) :
    ((simular_stop_diario lp og lc s).totalParcial = none
        ↔ (simular_stop_diario lp og lc s).rows = [])
      ∧ (s = [] → simular_stop_diario lp og lc s = ⟨[], none⟩) := by
  constructor
  · unfold simular_stop_diario
    by_cases h : (simRows lp og lc s).isEmpty
    · simp [h, List.isEmpty_iff.mp h]
    · have hne : simRows lp og lc s ≠ [] := fun hn => h (List.isEmpty_iff.mpr hn)
      simp [h, hne]
  · intro hs
    subst hs
    rfl

theorem claim_C10_total_parcial_witness :
    simular_stop_diario 0 0 1 [] = ⟨[], none⟩ :=
  (claim_C10_total_parcial 0 0 1 []).2 rfl

end TradingDash

namespace TradingDash

theorem claim_C2_window_filter_witness :
    (⟨0, 10, 0, 0, 0⟩ : Trade) ∈ filtrar_por_tres_janelas_abertura
      [⟨0, 10, 0, 0, 0⟩] (9, 0) (10, 45) false none none false none none :=
  (claim_C2_window_filter [⟨0, 10, 0, 0, 0⟩] (9, 0) (10, 45) false none none
    false none none ⟨0, 10, 0, 0, 0⟩).mpr
    ⟨List.mem_cons_self _ _, Or.inl (Or.inl ⟨by decide, by decide, by decide⟩)⟩

theorem claim_C4_amended_witness : calc_expectancia [] = 0 :=
  (claim_C4_amended [] 0).2.2

end TradingDash
